import Mathlib

/-!
Verification of `src/scrapers/downloadYoutubeSrts.py` (mit-brain).

Shallow embedding: Python strings are `List Char`; the filesystem is a pair of
path lists (files, directories); the external `yt-dlp` process is a parameter
function returning an outcome (terminated with an exit code and a set of
written files, timed out, or raised an exception).  All definitions are
translated directly from the Python source; `extract_id_spec` is the one
spec-side definition (a positional, leftmost-occurrence reading of the
regular-expression contract in the specification) used for the refinement claim about
`get_video_id`.
-/

/-- Python regex `\s` / `str.strip()` whitespace on a `str` pattern:
ASCII whitespace, the information separator controls, NEL, NBSP and the Unicode
space-separator code points. -/
def pyWhite (c : Char) : Bool :=
  let n := c.toNat
  (9 ≤ n && n ≤ 13) || n = 32 || (28 ≤ n && n ≤ 31) || n = 133 || n = 160 ||
  n = 0x1680 || (0x2000 ≤ n && n ≤ 0x200a) || n = 0x2028 || n = 0x2029 ||
  n = 0x202f || n = 0x205f || n = 0x3000

/-- Character class `[^&\s]` of the capture groups in `get_video_id`. -/
def idChar (c : Char) : Bool :=
  !(c = '&') && !pyWhite c

/-- Test that the list `p` is a prefix of `s` (literal regex prefix match). -/
def isPrefOf : List Char → List Char → Bool
  | [], _ => true
  | _ :: _, [] => false
  | a :: as, b :: bs => a = b && isPrefOf as bs

/-- Match the literal `p` at the head of `s`, returning the remainder on success. -/
def dropPref : List Char → List Char → Option (List Char)
  | [], s => some s
  | _ :: _, [] => none
  | a :: as, b :: bs => if a = b then dropPref as bs else none

/-- Python `needle in haystack` on strings (contiguous substring test). -/
def hasSub (needle : List Char) : List Char → Bool
  | [] => isPrefOf needle []
  | c :: rest => isPrefOf needle (c :: rest) || hasSub needle rest

/-- Regex alternation at one position: try each literal-prefix alternative in
order; an alternative succeeds when its prefix matches and at least one
`[^&\s]` character follows, and then the greedy capture `([^&\s]+)` is the
maximal such run. -/
def tryAt (alts : List (List Char)) (s : List Char) : Option (List Char) :=
  match alts with
  | [] => none
  | p :: rest =>
    match dropPref p s with
    | some tail =>
      let run := tail.takeWhile idChar
      if run.isEmpty then tryAt rest s else some run
    | none => tryAt rest s

/-- Embedding of `re.search` for a pattern made of literal-prefix alternatives followed by
`([^&\s]+)`: scan positions left to right, return the first successful
capture. -/
def reSearch (alts : List (List Char)) : List Char → Option (List Char)
  | [] => none
  | c :: rest =>
    match tryAt alts (c :: rest) with
    | some r => some r
    | none => reSearch alts rest

/-- Literal part of `(?:youtube\.com\/watch\?v=|youtu\.be\/)`, first alternative. -/
def watchPat : List Char := "youtube.com/watch?v=".data

/-- Literal part of `(?:youtube\.com\/watch\?v=|youtu\.be\/)`, second alternative. -/
def shortPat : List Char := "youtu.be/".data

/-- Literal part of `youtube\.com\/embed\/([^&\s]+)`. -/
def embedPat : List Char := "youtube.com/embed/".data

/-- Literal part of `youtube\.com\/v\/([^&\s]+)`. -/
def vPat : List Char := "youtube.com/v/".data

/-- Embedding of `get_video_id(url)` from the source: `none` models Python `None` or a
non-`str` argument; an empty string is rejected by `if not url`; otherwise the
three regex patterns are tried in order with `re.search`, first match wins. -/
def get_video_id : Option (List Char) → Option (List Char)
  | none => none
  | some s =>
    if s.isEmpty then none
    else
      match reSearch [watchPat, shortPat] s with
      | some r => some r
      | none =>
        match reSearch [embedPat] s with
        | some r => some r
        | none => reSearch [vPat] s

/-- Spec-side: alternative `a` matches at position `i` of `s` when `a` occurs
at `i` and is followed by at least one character that is not `&` and not
whitespace. -/
def altMatchAt (a s : List Char) (i : Nat) : Bool :=
  isPrefOf a (s.drop i) && !((s.drop (i + a.length)).takeWhile idChar).isEmpty

/-- Spec-side: some alternative of the pattern matches at position `i`. -/
def anyMatchAt (alts : List (List Char)) (s : List Char) (i : Nat) : Bool :=
  alts.any (fun a => altMatchAt a s i)

/-- Spec-side: leftmost position of `s` at which the pattern matches. -/
def firstMatchPos (alts : List (List Char)) (s : List Char) : Option Nat :=
  (List.range s.length).find? (anyMatchAt alts s)

/-- Spec-side: the captured segment at position `i` — for the first
alternative that matches there, the run of characters after the prefix
extending exactly up to (and not including) the first `&` or whitespace. -/
def captureAt (alts : List (List Char)) (s : List Char) (i : Nat) : Option (List Char) :=
  (alts.find? (fun a => altMatchAt a s i)).map
    (fun a => (s.drop (i + a.length)).takeWhile idChar)

/-- Spec-side search: capture at the leftmost matching position, if any. -/
def specSearch (alts : List (List Char)) (s : List Char) : Option (List Char) :=
  match firstMatchPos alts s with
  | some i => captureAt alts s i
  | none => none

/-- Modelled from the specification text for `extract_id`: for input that is not a
non-empty string return none; otherwise try the three URL shapes
(watch-page/short-link, embed, versioned-embed) in fixed order and return the
first captured identifier segment, terminated by `&` or whitespace; none when
no shape matches. -/
def extract_id_spec : Option (List Char) → Option (List Char)
  | none => none
  | some s =>
    if s.isEmpty then none
    else
      match specSearch [watchPat, shortPat] s with
      | some r => some r
      | none =>
        match specSearch [embedPat] s with
        | some r => some r
        | none => specSearch [vPat] s

example : get_video_id (some "https://www.youtube.com/watch?v=dQw4w9WgXcQ&t=1s".data)
    = some "dQw4w9WgXcQ".data := by decide
example : get_video_id (some "https://youtu.be/abc123".data) = some "abc123".data := by decide
example : get_video_id (some "https://www.youtube.com/embed/xyz 9".data)
    = some "xyz".data := by decide
example : get_video_id (some "https://www.youtube.com/v/idid&x=2".data)
    = some "idid".data := by decide
example : get_video_id (some "https://example.com/watch?v=abc".data) = none := by decide
example : get_video_id (some "".data) = none := by decide
example : get_video_id none = none := by decide

/-- Filesystem state: the set of existing file paths and of existing
directories (both as path lists). -/
structure FS where
  files : List (List Char)
  dirs : List (List Char)
deriving DecidableEq

/-- Outcome of one `subprocess.run` invocation of the external tool: it
terminates with a return code having written some files, times out, or raises
an exception. -/
inductive ToolOutcome where
  | completes (returncode : Int) (writes : List (List Char))
  | timedOut
  | raised (msg : List Char)
deriving DecidableEq

/-- The external tool as a black box: from the URL and the `-o` output base it
produces an outcome. -/
def Tool : Type := List Char → List Char → ToolOutcome

/-- Result of `download_captions`: the Python `(success, message)` pair, the
filesystem afterwards, and whether the external tool was invoked. -/
structure DCRes where
  success : Bool
  message : List Char
  st : FS
  invoked : Bool
deriving DecidableEq

/-- Embedding of `os.path.join(a, b)` for two POSIX path components. -/
def pjoin (a b : List Char) : List Char :=
  if isPrefOf "/".data b then b
  else if a.isEmpty || a.getLast? = some '/' then a ++ b
  else a ++ "/".data ++ b

/-- The filename `f"{video_id}.{language}.srt"`. -/
def srtName (video_id language : List Char) : List Char :=
  video_id ++ ('.' :: language) ++ ".srt".data

/-- The `expected_file` path of `download_captions`. -/
def expectedPath (output_dir video_id language : List Char) : List Char :=
  pjoin output_dir (srtName video_id language)

/-- Embedding of `os.makedirs(d, exist_ok=True)` on the directory set. -/
def addDir (d : List Char) (ds : List (List Char)) : List (List Char) :=
  if d ∈ ds then ds else d :: ds

/-- Embedding of `download_captions(video_url, video_id, output_dir, language)` from the
source: skip when the expected file exists; otherwise ensure the directory,
invoke the tool, and classify the outcome exactly as the Python does
(return code 0 and the expected file present ⇒ `Downloaded`; any other
termination ⇒ `No captions available`; timeout and exception cases). -/
def download_captions (toolRun : Tool) (st : FS)
    (video_url video_id output_dir language : List Char) : DCRes :=
  let expected := expectedPath output_dir video_id language
  if expected ∈ st.files then
    ⟨true, "Caption file already exists".data, st, false⟩
  else
    let st1 : FS := ⟨st.files, addDir output_dir st.dirs⟩
    let output_base := pjoin output_dir video_id
    match toolRun video_url output_base with
    | ToolOutcome.completes rc writes =>
      let st2 : FS := ⟨writes ++ st1.files, st1.dirs⟩
      if rc = 0 ∧ expected ∈ st2.files then ⟨true, "Downloaded".data, st2, true⟩
      else ⟨false, "No captions available".data, st2, true⟩
    | ToolOutcome.timedOut => ⟨false, "Timeout".data, st1, true⟩
    | ToolOutcome.raised m => ⟨false, ("Error: ".data ++ m), st1, true⟩

/-- A CSV row as produced by `csv.DictReader`: an association list from column
name to value; a missing key models both an absent column and a `None`
value. -/
def Row : Type := List (List Char × List Char)

/-- Embedding of `row.get(key)`. -/
def rget : Row → List Char → Option (List Char)
  | [], _ => none
  | (k, v) :: rest, key => if k = key then some v else rget rest key

/-- Embedding of `key in row`. -/
def hasKey (r : Row) (key : List Char) : Bool :=
  (rget r key).isSome

/-- Column-name constants of the script. -/
def urlKey : List Char := "url".data

/-- The `kind` column name. -/
def kindKey : List Char := "kind".data

/-- The `source` column name. -/
def sourceKey : List Char := "source".data

/-- The `fullText` column name. -/
def ftKey : List Char := "fullText".data

/-- The string constant `video`. -/
def videoVal : List Char := "video".data

/-- The string constant `YouTube`. -/
def youtubeVal : List Char := "YouTube".data

/-- The default language `en` of `download_captions`. -/
def enLang : List Char := "en".data

/-- True when the row list is non-empty and its first row has both the `kind`
and the `source` key. -/
def hasKindSource (rows : List Row) : Bool :=
  match rows with
  | [] => false
  | r :: _ => hasKey r kindKey && hasKey r sourceKey

/-- True when the row list is non-empty and its first row has the `fullText` key. -/
def hasFulltext (rows : List Row) : Bool :=
  match rows with
  | [] => false
  | r :: _ => hasKey r ftKey

/-- The fail-fast column check: the row list is non-empty and its first row
lacks the URL column. -/
def missingUrlCol (rows : List Row) (url_column : List Char) : Bool :=
  match rows with
  | [] => false
  | r :: _ => !hasKey r url_column

/-- Python truthiness of `row.get(k)`: key present with a non-empty value. -/
def truthyGet (r : Row) (k : List Char) : Bool :=
  match rget r k with
  | some v => !v.isEmpty
  | none => false

/-- The category filter of `process_csv`: with `kind`/`source` columns, keep
rows whose kind is `video` and whose source is `YouTube`; otherwise keep rows with
a truthy URL field. -/
def categoryFilter (rows : List Row) (url_column : List Char) : List Row :=
  if hasKindSource rows then
    rows.filter (fun r =>
      decide (rget r kindKey = some videoVal) && decide (rget r sourceKey = some youtubeVal))
  else
    rows.filter (fun r => truthyGet r url_column)

/-- Python `str.strip()` (both ends, Python whitespace). -/
def pyStrip (v : List Char) : List Char :=
  ((v.dropWhile pyWhite).reverse.dropWhile pyWhite).reverse

/-- The redundancy predicate of `process_csv`:
a row still needs captions when its `fullText` field is missing, empty, or
whitespace-only. -/
def needsCaptions (r : Row) : Bool :=
  match rget r ftKey with
  | none => true
  | some v => v.isEmpty || (pyStrip v).isEmpty

/-- Run-local counters and filesystem of the per-row loop; `invoked` counts
external-tool invocations (instrumentation for the frame claims). -/
structure LoopState where
  st : FS
  success : Nat
  skip : Nat
  error : Nat
  invoked : Nat
deriving DecidableEq

/-- The initial loop state over a given filesystem. -/
def initLS (st : FS) : LoopState := ⟨st, 0, 0, 0, 0⟩

/-- The body of the per-row loop of `process_csv`: silently skip a row with a
falsy URL; count an unresolvable URL as an error; otherwise call
`download_captions` and classify its `(success, message)` pair exactly as the
Python does (`success` and `"already exists" in message` ⇒ skip counter,
`success` otherwise ⇒ success counter, failure ⇒ error counter). -/
def stepRow (toolRun : Tool) (url_column captions_dir : List Char)
    (ls : LoopState) (row : Row) : LoopState :=
  match rget row url_column with
  | none => ls
  | some url =>
    if url.isEmpty then ls
    else
      match get_video_id (some url) with
      | none => { ls with error := ls.error + 1 }
      | some vid =>
        let res := download_captions toolRun ls.st url vid captions_dir enLang
        let ls1 := { ls with st := res.st,
                             invoked := ls.invoked + (if res.invoked then 1 else 0) }
        if res.success then
          if hasSub "already exists".data res.message then
            { ls1 with skip := ls1.skip + 1 }
          else
            { ls1 with success := ls1.success + 1 }
        else
          { ls1 with error := ls1.error + 1 }

/-- Result of `process_csv`: the returned boolean, the two headline counts of
the summary, and the final loop state. -/
structure RunResult where
  ok : Bool
  total : Nat
  needing : Nat
  loop : LoopState
deriving DecidableEq

/-- Embedding of `process_csv(csv_file, captions_dir, url_column)` from the source, with
the two IO-dependent preliminaries abstracted: `toolOk` is the result of the
`yt-dlp --version` probe and `csvRead` the result of reading the CSV
(`none` = unreadable).  Fail-fast checks in source order, then the category
filter, then the `fullText` redundancy skip, then the per-row loop. -/
def process_csv (toolOk : Bool) (csvRead : Option (List Row)) (toolRun : Tool)
    (captions_dir url_column : List Char) (st : FS) : RunResult :=
  if !toolOk then ⟨false, 0, 0, initLS st⟩
  else
    match csvRead with
    | none => ⟨false, 0, 0, initLS st⟩
    | some rows =>
      if missingUrlCol rows url_column then ⟨false, 0, 0, initLS st⟩
      else
        let filtered1 := categoryFilter rows url_column
        let total := filtered1.length
        let filtered2 :=
          if hasFulltext rows then filtered1.filter needsCaptions else filtered1
        let needing := filtered2.length
        if needing = 0 then ⟨true, total, 0, initLS st⟩
        else ⟨true, total, needing,
              filtered2.foldl (stepRow toolRun url_column captions_dir) (initLS st)⟩

/-- Exit code of `main()`: 1 when the CSV file does not exist or `process_csv`
returns `False`; 0 otherwise.  `process_csv` is called with the default
the default URL column `url`. -/
def mainExit (csvExists toolOk : Bool) (csvRead : Option (List Row))
    (toolRun : Tool) (captions_dir : List Char) (st : FS) : Nat :=
  if !csvExists then 1
  else if (process_csv toolOk csvRead toolRun captions_dir urlKey st).ok then 0 else 1

/-- A stub external tool that always succeeds: exit code 0 and it writes
`{output_base}.en.srt`. -/
def stubTool : Tool :=
  fun _ output_base => ToolOutcome.completes 0 [output_base ++ ".en.srt".data]

/-! ### Lemmas about the identifier extractor -/

lemma dropPref_eq_some (p : List Char) : ∀ s t : List Char,
    dropPref p s = some t ↔ isPrefOf p s = true ∧ t = s.drop p.length := by
  induction p with
  | nil =>
    intro s t
    simp [dropPref, isPrefOf, eq_comm]
  | cons a as ih =>
    intro s t
    cases s with
    | nil => simp [dropPref, isPrefOf]
    | cons b bs =>
      by_cases hab : a = b
      · simp [dropPref, isPrefOf, hab, ih bs t, List.drop_succ_cons]
      · simp [dropPref, isPrefOf, hab]

lemma dropPref_eq_none (p s : List Char) :
    dropPref p s = none ↔ isPrefOf p s = false := by
  constructor
  · intro h
    by_contra hc
    have hp : isPrefOf p s = true := by
      cases hb : isPrefOf p s
      · exact absurd hb hc
      · rfl
    have := (dropPref_eq_some p s (s.drop p.length)).mpr ⟨hp, rfl⟩
    rw [this] at h
    exact Option.noConfusion h
  · intro h
    cases hd : dropPref p s with
    | none => rfl
    | some t =>
      have := ((dropPref_eq_some p s t).mp hd).1
      rw [this] at h
      exact absurd h (by simp)

lemma tryAt_eq_captureAt (alts : List (List Char)) (s : List Char) :
    tryAt alts s = captureAt alts s 0 := by
  induction alts with
  | nil => simp [tryAt, captureAt]
  | cons p rest ih =>
    simp only [tryAt]
    cases hdp : dropPref p s with
    | none =>
      have hpf : isPrefOf p s = false := (dropPref_eq_none p s).mp hdp
      have hm : altMatchAt p s 0 = false := by
        simp [altMatchAt, hpf]
      rw [ih, captureAt, captureAt,
          List.find?_cons_of_neg _ (by simp [hm])]
    | some tail =>
      obtain ⟨hpf, htail⟩ := (dropPref_eq_some p s tail).mp hdp
      subst htail
      by_cases he : ((s.drop p.length).takeWhile idChar).isEmpty
      · have hm : altMatchAt p s 0 = false := by
          simp [altMatchAt, Nat.zero_add, he]
        simp only [he, if_pos]
        rw [ih, captureAt, captureAt,
            List.find?_cons_of_neg _ (by simp [hm])]
      · have hm : altMatchAt p s 0 = true := by
          simp [altMatchAt, Nat.zero_add, hpf]
          simpa using he
        rw [captureAt, List.find?_cons_of_pos _ (by simp [hm])]
        simp [he, Nat.zero_add]

lemma anyMatchAt_zero_false_iff (alts : List (List Char)) (s : List Char) :
    anyMatchAt alts s 0 = false ↔ tryAt alts s = none := by
  rw [tryAt_eq_captureAt, captureAt, Option.map_eq_none', List.find?_eq_none,
      anyMatchAt, List.any_eq_false]

lemma altMatchAt_succ (a : List Char) (c : Char) (s : List Char) (i : Nat) :
    altMatchAt a (c :: s) (i + 1) = altMatchAt a s i := by
  have h1 : i + 1 + a.length = (i + a.length) + 1 := by omega
  simp [altMatchAt, h1, List.drop_succ_cons]

lemma anyMatchAt_succ (alts : List (List Char)) (c : Char) (s : List Char) (i : Nat) :
    anyMatchAt alts (c :: s) (i + 1) = anyMatchAt alts s i := by
  simp only [anyMatchAt]
  congr 1
  funext a
  exact altMatchAt_succ a c s i

lemma captureAt_succ (alts : List (List Char)) (c : Char) (s : List Char) (i : Nat) :
    captureAt alts (c :: s) (i + 1) = captureAt alts s i := by
  simp only [captureAt]
  have hf : (fun a => altMatchAt a (c :: s) (i + 1)) = (fun a => altMatchAt a s i) := by
    funext a
    exact altMatchAt_succ a c s i
  rw [hf]
  cases hq : alts.find? (fun a => altMatchAt a s i) with
  | none => rfl
  | some a =>
    have h1 : i + 1 + a.length = (i + a.length) + 1 := by omega
    simp [h1, List.drop_succ_cons]

lemma firstMatchPos_cons (alts : List (List Char)) (c : Char) (s : List Char) :
    firstMatchPos alts (c :: s) =
      if anyMatchAt alts (c :: s) 0 then some 0
      else (firstMatchPos alts s).map Nat.succ := by
  have hlen : (c :: s).length = s.length + 1 := rfl
  rw [firstMatchPos, hlen, List.range_succ_eq_map]
  by_cases h : anyMatchAt alts (c :: s) 0
  · rw [List.find?_cons_of_pos _ h, if_pos h]
  · rw [List.find?_cons_of_neg _ h, if_neg h, List.find?_map]
    have hp : (anyMatchAt alts (c :: s)) ∘ Nat.succ = anyMatchAt alts s := by
      funext i
      exact anyMatchAt_succ alts c s i
    rw [hp, firstMatchPos]

lemma reSearch_eq_specSearch (alts : List (List Char)) (s : List Char) :
    reSearch alts s = specSearch alts s := by
  induction s with
  | nil => simp [reSearch, specSearch, firstMatchPos]
  | cons c rest ih =>
    simp only [reSearch]
    cases ht : tryAt alts (c :: rest) with
    | some r =>
      have hany : anyMatchAt alts (c :: rest) 0 = true := by
        cases hb : anyMatchAt alts (c :: rest) 0
        · rw [(anyMatchAt_zero_false_iff alts (c :: rest)).mp hb] at ht
          exact Option.noConfusion ht
        · rfl
      show some r = specSearch alts (c :: rest)
      rw [specSearch, firstMatchPos_cons, if_pos hany]
      show some r = captureAt alts (c :: rest) 0
      rw [← tryAt_eq_captureAt, ht]
    | none =>
      have hany : anyMatchAt alts (c :: rest) 0 = false :=
        (anyMatchAt_zero_false_iff alts (c :: rest)).mpr ht
      rw [ih, specSearch, specSearch, firstMatchPos_cons, if_neg (by simp [hany])]
      cases hf : firstMatchPos alts rest with
      | none => rfl
      | some i => simp [captureAt_succ]

/-- C1. The identifier extractor agrees everywhere with the specification contract
`extract_id`: `none` for non-string or empty input and for strings matching
none of the three URL shapes; otherwise, for the first shape (in the fixed
order watch-page/short-link, embed, versioned-embed) that matches, the
captured identifier segment at the leftmost matching position, extending
exactly up to the first `&` or whitespace after the pattern prefix. -/
theorem get_video_id_matches_spec (u : Option (List Char)) :
    get_video_id u = extract_id_spec u := by
  cases u with
  | none => rfl
  | some s =>
    simp only [get_video_id, extract_id_spec, reSearch_eq_specSearch]

lemma tryAt_shape (alts : List (List Char)) (s r : List Char)
    (h : tryAt alts s = some r) : r ≠ [] ∧ r.all idChar = true := by
  induction alts with
  | nil => simp [tryAt] at h
  | cons p rest ih =>
    simp only [tryAt] at h
    cases hdp : dropPref p s with
    | none =>
      rw [hdp] at h
      exact ih h
    | some tail =>
      rw [hdp] at h
      simp only at h
      by_cases he : (tail.takeWhile idChar).isEmpty
      · rw [if_pos he] at h
        exact ih h
      · rw [if_neg he] at h
        have hr : r = tail.takeWhile idChar := by
          cases h
          rfl
        subst hr
        refine ⟨?_, List.all_takeWhile⟩
        intro hnil
        rw [hnil] at he
        exact he rfl

lemma reSearch_shape (alts : List (List Char)) : ∀ s r : List Char,
    reSearch alts s = some r → r ≠ [] ∧ r.all idChar = true := by
  intro s
  induction s with
  | nil => intro r h; simp [reSearch] at h
  | cons c rest ih =>
    intro r h
    simp only [reSearch] at h
    cases ht : tryAt alts (c :: rest) with
    | some q =>
      rw [ht] at h
      simp only at h
      cases h
      exact tryAt_shape alts (c :: rest) r ht
    | none =>
      rw [ht] at h
      exact ih r h

lemma get_video_id_shape (u : Option (List Char)) (r : List Char)
    (h : get_video_id u = some r) : r ≠ [] ∧ r.all idChar = true := by
  cases u with
  | none => simp [get_video_id] at h
  | some s =>
    simp only [get_video_id] at h
    by_cases hs : s.isEmpty
    · rw [if_pos hs] at h
      exact Option.noConfusion h
    · rw [if_neg hs] at h
      cases h1 : reSearch [watchPat, shortPat] s with
      | some q =>
        rw [h1] at h
        simp only at h
        cases h
        exact reSearch_shape _ s r h1
      | none =>
        rw [h1] at h
        simp only at h
        cases h2 : reSearch [embedPat] s with
        | some q =>
          rw [h2] at h
          simp only at h
          cases h
          exact reSearch_shape _ s r h2
        | none =>
          rw [h2] at h
          simp only at h
          exact reSearch_shape _ s r h

lemma get_video_id_nonempty (url vid : List Char)
    (h : get_video_id (some url) = some vid) : vid ≠ [] :=
  (get_video_id_shape (some url) vid h).1

/-- C10. Every identifier returned by `get_video_id` is a non-empty string
containing no `&` and no whitespace character; in particular the identifier
interpolated into the expected output file path is never empty. -/
theorem video_id_wellformed (u : Option (List Char)) (r : List Char)
    (h : get_video_id u = some r) :
    r ≠ [] ∧ ∀ c ∈ r, c ≠ '&' ∧ pyWhite c = false := by
  obtain ⟨hne, hall⟩ := get_video_id_shape u r h
  refine ⟨hne, fun c hc => ?_⟩
  have hcc := List.all_eq_true.mp hall c hc
  simp only [idChar, Bool.and_eq_true, Bool.not_eq_true', decide_eq_false_iff_not] at hcc
  exact ⟨hcc.1, by simpa using hcc.2⟩

/-- Witness for C10 at a concrete URL. -/
theorem video_id_wellformed_w :
    "abc123".data ≠ [] ∧ ∀ c ∈ "abc123".data, c ≠ '&' ∧ pyWhite c = false :=
  video_id_wellformed (some "https://youtu.be/abc123".data) "abc123".data (by decide)

/-- C9. The patterns are searched unanchored anywhere in the input, so
strings that are not YouTube URLs — other domains containing a pattern as an
internal substring, or text surrounding a URL — still yield an identifier
rather than `none`. -/
theorem unanchored_search_examples :
    get_video_id (some "notyoutube.com/watch?v=x".data) = some "x".data ∧
    get_video_id (some "see https://youtu.be/abc in text".data) = some "abc".data ∧
    get_video_id (some "foo youtube.com/embed/zzz&bar".data) = some "zzz".data ∧
    get_video_id (some "https://myyoutube.com/v/clip7".data) = some "clip7".data := by
  refine ⟨by decide, by decide, by decide, by decide⟩

/-! ### Lemmas about `download_captions` and the per-row loop -/

lemma download_captions_exists (toolRun : Tool) (st : FS) (url vid dir lang : List Char)
    (hex : expectedPath dir vid lang ∈ st.files) :
    download_captions toolRun st url vid dir lang
      = ⟨true, "Caption file already exists".data, st, false⟩ := by
  simp [download_captions, hex]

lemma download_captions_invoke (toolRun : Tool) (st : FS) (url vid dir lang : List Char)
    (rc : Int) (writes : List (List Char))
    (hnf : expectedPath dir vid lang ∉ st.files)
    (hterm : toolRun url (pjoin dir vid) = ToolOutcome.completes rc writes) :
    download_captions toolRun st url vid dir lang
      = if rc = 0 ∧ expectedPath dir vid lang ∈ writes ++ st.files
        then ⟨true, "Downloaded".data, ⟨writes ++ st.files, addDir dir st.dirs⟩, true⟩
        else ⟨false, "No captions available".data, ⟨writes ++ st.files, addDir dir st.dirs⟩, true⟩ := by
  simp [download_captions, hnf, hterm]

lemma stepRow_exists (toolRun : Tool) (uc dir : List Char) (ls : LoopState) (r : Row)
    (url vid : List Char)
    (hu : rget r uc = some url) (hne : url.isEmpty = false)
    (hv : get_video_id (some url) = some vid)
    (hex : expectedPath dir vid enLang ∈ ls.st.files) :
    stepRow toolRun uc dir ls r = { ls with skip := ls.skip + 1 } := by
  simp [stepRow, hu, hne, hv,
        download_captions_exists toolRun ls.st url vid dir enLang hex,
        (by decide :
          hasSub "already exists".data "Caption file already exists".data = true)]

/-- C3. For a row whose identifier resolves and whose expected file
`{output_dir}/{identifier}.{language}.srt` already exists, `download_captions`
returns the already-exists outcome with the filesystem untouched (no file
write, no directory creation) and without invoking the external tool, and the
dispatcher counts the row only in the skip counter. -/
theorem already_exists_skip (toolRun : Tool) (ls : LoopState) (r : Row)
    (url vid captions_dir : List Char)
    (hu : rget r urlKey = some url) (hne : url.isEmpty = false)
    (hv : get_video_id (some url) = some vid)
    (hex : expectedPath captions_dir vid enLang ∈ ls.st.files) :
    download_captions toolRun ls.st url vid captions_dir enLang
        = ⟨true, "Caption file already exists".data, ls.st, false⟩ ∧
    stepRow toolRun urlKey captions_dir ls r = { ls with skip := ls.skip + 1 } :=
  ⟨download_captions_exists toolRun ls.st url vid captions_dir enLang hex,
   stepRow_exists toolRun urlKey captions_dir ls r url vid hu hne hv hex⟩

/-- Witness for C3 at a concrete row, filesystem and directory. -/
theorem already_exists_skip_w :
    download_captions stubTool ⟨["cap/abc.en.srt".data], []⟩
        "https://youtu.be/abc".data "abc".data "cap".data enLang
      = ⟨true, "Caption file already exists".data, ⟨["cap/abc.en.srt".data], []⟩, false⟩ ∧
    stepRow stubTool urlKey "cap".data
        ⟨⟨["cap/abc.en.srt".data], []⟩, 0, 0, 0, 0⟩
        [(urlKey, "https://youtu.be/abc".data)]
      = ⟨⟨["cap/abc.en.srt".data], []⟩, 0, 1, 0, 0⟩ :=
  already_exists_skip stubTool ⟨⟨["cap/abc.en.srt".data], []⟩, 0, 0, 0, 0⟩
    [(urlKey, "https://youtu.be/abc".data)]
    "https://youtu.be/abc".data "abc".data "cap".data
    (by decide) (by decide) (by decide) (by decide)

/-- C2. When the external tool terminates without timeout and without an
invocation exception, the outcome is `Downloaded` exactly when the exit code
is zero and the expected file exists afterwards; in every other terminating
case (zero exit without the file, or non-zero exit) the outcome is
`No captions available`, which the dispatcher counts in the error counter,
not the downloaded counter. -/
theorem download_outcome_classification (toolRun : Tool) (ls : LoopState) (r : Row)
    (url vid dir : List Char) (rc : Int) (writes : List (List Char))
    (hu : rget r urlKey = some url) (hne : url.isEmpty = false)
    (hv : get_video_id (some url) = some vid)
    (hnf : expectedPath dir vid enLang ∉ ls.st.files)
    (hterm : toolRun url (pjoin dir vid) = ToolOutcome.completes rc writes) :
    ((rc = 0 ∧ expectedPath dir vid enLang ∈ writes ++ ls.st.files) →
      download_captions toolRun ls.st url vid dir enLang
        = ⟨true, "Downloaded".data, ⟨writes ++ ls.st.files, addDir dir ls.st.dirs⟩, true⟩ ∧
      stepRow toolRun urlKey dir ls r
        = { ls with st := ⟨writes ++ ls.st.files, addDir dir ls.st.dirs⟩,
                    invoked := ls.invoked + 1, success := ls.success + 1 }) ∧
    (¬(rc = 0 ∧ expectedPath dir vid enLang ∈ writes ++ ls.st.files) →
      download_captions toolRun ls.st url vid dir enLang
        = ⟨false, "No captions available".data,
            ⟨writes ++ ls.st.files, addDir dir ls.st.dirs⟩, true⟩ ∧
      stepRow toolRun urlKey dir ls r
        = { ls with st := ⟨writes ++ ls.st.files, addDir dir ls.st.dirs⟩,
                    invoked := ls.invoked + 1, error := ls.error + 1 }) := by
  have hdc := download_captions_invoke toolRun ls.st url vid dir enLang rc writes hnf hterm
  constructor
  · intro hok
    rw [if_pos hok] at hdc
    refine ⟨hdc, ?_⟩
    simp [stepRow, hu, hne, hv, hdc,
          (by decide : hasSub "already exists".data "Downloaded".data = false)]
  · intro hko
    rw [if_neg hko] at hdc
    refine ⟨hdc, ?_⟩
    simp [stepRow, hu, hne, hv, hdc]

/-- Witness for C2: the stub tool exits zero and writes the expected file, so
the concrete outcome is `Downloaded` and the success counter increments. -/
theorem download_outcome_classification_w :
    download_captions stubTool ⟨[], []⟩
        "https://youtu.be/abc".data "abc".data "cap".data enLang
      = ⟨true, "Downloaded".data,
          ⟨["cap/abc.en.srt".data] ++ [], addDir "cap".data []⟩, true⟩ ∧
    stepRow stubTool urlKey "cap".data ⟨⟨[], []⟩, 0, 0, 0, 0⟩
        [(urlKey, "https://youtu.be/abc".data)]
      = ⟨⟨["cap/abc.en.srt".data] ++ [], addDir "cap".data []⟩, 1, 0, 0, 1⟩ :=
  (download_outcome_classification stubTool ⟨⟨[], []⟩, 0, 0, 0, 0⟩
    [(urlKey, "https://youtu.be/abc".data)]
    "https://youtu.be/abc".data "abc".data "cap".data 0 ["cap/abc.en.srt".data]
    (by decide) (by decide) (by decide) (by decide) (by decide)).1 (by decide)

lemma download_captions_files_mono (toolRun : Tool) (st : FS) (u v d l p : List Char)
    (hp : p ∈ st.files) : p ∈ (download_captions toolRun st u v d l).st.files := by
  by_cases hex : expectedPath d v l ∈ st.files
  · rw [download_captions_exists toolRun st u v d l hex]
    exact hp
  · cases htool : toolRun u (pjoin d v) with
    | completes rc writes =>
      have hdc := download_captions_invoke toolRun st u v d l rc writes hex htool
      by_cases hc : rc = 0 ∧ expectedPath d v l ∈ writes ++ st.files
      · rw [if_pos hc] at hdc
        rw [hdc]
        exact List.mem_append_right _ hp
      · rw [if_neg hc] at hdc
        rw [hdc]
        exact List.mem_append_right _ hp
    | timedOut =>
      simp only [download_captions, hex, if_neg, htool]
      simpa using hp
    | raised m =>
      simp only [download_captions, hex, if_neg, htool]
      simpa using hp

/-- The identifier a row resolves to in the loop: its URL field when truthy,
run through `get_video_id`. -/
def rowVid (uc : List Char) (r : Row) : Option (List Char) :=
  match rget r uc with
  | none => none
  | some url => if url.isEmpty then none else get_video_id (some url)

lemma rowVid_elim (uc : List Char) (r : Row) (vid : List Char) (h : rowVid uc r = some vid) :
    ∃ url, rget r uc = some url ∧ url.isEmpty = false ∧ get_video_id (some url) = some vid := by
  cases hu : rget r uc with
  | none =>
    simp only [rowVid, hu] at h
    exact Option.noConfusion h
  | some url =>
    simp only [rowVid, hu] at h
    by_cases hne : url.isEmpty
    · rw [if_pos hne] at h
      exact Option.noConfusion h
    · rw [if_neg hne] at h
      exact ⟨url, rfl, eq_false_of_ne_true hne, h⟩

lemma step_invalid (toolRun : Tool) (uc dir : List Char) (ls : LoopState) (r : Row)
    (hinv : rowVid uc r = none) :
    (stepRow toolRun uc dir ls r).st = ls.st ∧
    (stepRow toolRun uc dir ls r).success = ls.success ∧
    (stepRow toolRun uc dir ls r).skip = ls.skip ∧
    (stepRow toolRun uc dir ls r).invoked = ls.invoked := by
  cases hu : rget r uc with
  | none => simp [stepRow, hu]
  | some url =>
    simp only [rowVid, hu] at hinv
    by_cases hne : url.isEmpty
    · simp [stepRow, hu, hne]
    · rw [if_neg hne] at hinv
      simp [stepRow, hu, hne, hinv]

lemma stepRow_files_mono (toolRun : Tool) (uc dir : List Char) (ls : LoopState) (r : Row)
    (p : List Char) (hp : p ∈ ls.st.files) :
    p ∈ (stepRow toolRun uc dir ls r).st.files := by
  cases hu : rget r uc with
  | none => simpa [stepRow, hu] using hp
  | some url =>
    by_cases hne : url.isEmpty
    · simpa [stepRow, hu, hne] using hp
    · cases hv : get_video_id (some url) with
      | none => simpa [stepRow, hu, hne, hv] using hp
      | some vid =>
        have hmono := download_captions_files_mono toolRun ls.st url vid dir enLang p hp
        simp only [stepRow, hu, hne, Bool.false_eq_true, if_false, hv]
        by_cases hs : (download_captions toolRun ls.st url vid dir enLang).success
        · by_cases hsub :
            hasSub "already exists".data
              (download_captions toolRun ls.st url vid dir enLang).message
          · simpa [hs, hsub] using hmono
          · simpa [hs, hsub] using hmono
        · simpa [hs] using hmono

lemma foldl_files_mono (toolRun : Tool) (uc dir : List Char) :
    ∀ (rows : List Row) (ls : LoopState) (p : List Char), p ∈ ls.st.files →
      p ∈ (rows.foldl (stepRow toolRun uc dir) ls).st.files := by
  intro rows
  induction rows with
  | nil => intro ls p hp; exact hp
  | cons r rest ih =>
    intro ls p hp
    exact ih _ p (stepRow_files_mono toolRun uc dir ls r p hp)

lemma pjoin_append (a b x : List Char) (hb : b ≠ []) :
    pjoin a b ++ x = pjoin a (b ++ x) := by
  obtain ⟨c, bs, rfl⟩ := List.exists_cons_of_ne_nil hb
  simp only [pjoin, isPrefOf, List.cons_append, Bool.and_true, decide_eq_true_eq]
  by_cases hc : '/' = c
  · rw [if_pos hc, if_pos hc]
    simp
  · rw [if_neg hc, if_neg hc]
    by_cases ha : (a.isEmpty || decide (a.getLast? = some '/')) = true
    · rw [if_pos ha, if_pos ha]
      simp [List.append_assoc]
    · rw [if_neg ha, if_neg ha]
      simp [List.append_assoc]

lemma stub_download_success (st : FS) (url vid dir : List Char) (hvid : vid ≠ []) :
    (download_captions stubTool st url vid dir enLang).success = true ∧
    expectedPath dir vid enLang ∈ (download_captions stubTool st url vid dir enLang).st.files := by
  by_cases hex : expectedPath dir vid enLang ∈ st.files
  · rw [download_captions_exists stubTool st url vid dir enLang hex]
    exact ⟨rfl, hex⟩
  · have hterm : stubTool url (pjoin dir vid)
        = ToolOutcome.completes 0 [pjoin dir vid ++ ".en.srt".data] := rfl
    have hkey : pjoin dir vid ++ ".en.srt".data = expectedPath dir vid enLang := by
      rw [expectedPath, srtName, pjoin_append dir vid _ hvid]
      congr 1
      rw [List.append_assoc]
      rfl
    have hdc := download_captions_invoke stubTool st url vid dir enLang 0
      [pjoin dir vid ++ ".en.srt".data] hex hterm
    have hcnd : (0 : Int) = 0 ∧ expectedPath dir vid enLang
        ∈ [pjoin dir vid ++ ".en.srt".data] ++ st.files := by
      refine ⟨rfl, ?_⟩
      rw [hkey]
      exact List.mem_append_left _ (List.mem_singleton.mpr rfl)
    rw [if_pos hcnd] at hdc
    rw [hdc]
    refine ⟨rfl, ?_⟩
    rw [← hkey]
    exact List.mem_append_left _ (List.mem_singleton.mpr rfl)

lemma stub_step_valid (uc dir : List Char) (ls : LoopState) (r : Row) (vid : List Char)
    (hvid : rowVid uc r = some vid) :
    (stepRow stubTool uc dir ls r).success + (stepRow stubTool uc dir ls r).skip
       = ls.success + ls.skip + 1 ∧
    expectedPath dir vid enLang ∈ (stepRow stubTool uc dir ls r).st.files := by
  obtain ⟨url, hu, hne, hv⟩ := rowVid_elim uc r vid hvid
  have hnn : vid ≠ [] := get_video_id_nonempty url vid hv
  obtain ⟨hsucc, hmem⟩ := stub_download_success ls.st url vid dir hnn
  simp only [stepRow, hu, hne, Bool.false_eq_true, if_false, hv, hsucc, if_true]
  by_cases hsub :
      hasSub "already exists".data
        (download_captions stubTool ls.st url vid dir enLang).message
  · simp only [hsub, if_true]
    exact ⟨by omega, hmem⟩
  · simp only [hsub, Bool.false_eq_true, if_false]
    exact ⟨by omega, hmem⟩

/-- Number of rows of a list whose URL resolves to an identifier. -/
def countValid (uc : List Char) (rows : List Row) : Nat :=
  (rows.filter (fun r => (rowVid uc r).isSome)).length

lemma countValid_cons (uc : List Char) (r : Row) (rest : List Row) :
    countValid uc (r :: rest)
      = (if (rowVid uc r).isSome then 1 else 0) + countValid uc rest := by
  simp only [countValid, List.filter_cons]
  by_cases h : (rowVid uc r).isSome
  · simp [h]
    omega
  · simp [h]

lemma stub_run_counts (uc dir : List Char) : ∀ (rows : List Row) (ls : LoopState),
    (rows.foldl (stepRow stubTool uc dir) ls).success
      + (rows.foldl (stepRow stubTool uc dir) ls).skip
      = ls.success + ls.skip + countValid uc rows := by
  intro rows
  induction rows with
  | nil =>
    intro ls
    simp [countValid]
  | cons r rest ih =>
    intro ls
    rw [List.foldl_cons, countValid_cons]
    cases hval : rowVid uc r with
    | some vid =>
      have hstep := (stub_step_valid uc dir ls r vid hval).1
      rw [ih (stepRow stubTool uc dir ls r), hstep]
      simp
      omega
    | none =>
      obtain ⟨_, hsuc, hskip, _⟩ := step_invalid stubTool uc dir ls r hval
      rw [ih (stepRow stubTool uc dir ls r), hsuc, hskip]
      simp

lemma stub_run_writes (uc dir : List Char) : ∀ (rows : List Row) (ls : LoopState)
    (r : Row) (vid : List Char), r ∈ rows → rowVid uc r = some vid →
    expectedPath dir vid enLang ∈ (rows.foldl (stepRow stubTool uc dir) ls).st.files := by
  intro rows
  induction rows with
  | nil =>
    intro ls r vid hmem _
    exact absurd hmem (List.not_mem_nil r)
  | cons q rest ih =>
    intro ls r vid hmem hval
    rw [List.foldl_cons]
    rcases List.mem_cons.mp hmem with hrq | hrest
    · subst hrq
      exact foldl_files_mono stubTool uc dir rest _ _
        (stub_step_valid uc dir ls r vid hval).2
    · exact ih _ r vid hrest hval

lemma run_all_exists (toolRun : Tool) (uc dir : List Char) :
    ∀ (rows : List Row) (ls : LoopState),
    (∀ r ∈ rows, ∀ vid, rowVid uc r = some vid →
        expectedPath dir vid enLang ∈ ls.st.files) →
    (rows.foldl (stepRow toolRun uc dir) ls).st = ls.st ∧
    (rows.foldl (stepRow toolRun uc dir) ls).success = ls.success ∧
    (rows.foldl (stepRow toolRun uc dir) ls).invoked = ls.invoked ∧
    (rows.foldl (stepRow toolRun uc dir) ls).skip = ls.skip + countValid uc rows := by
  intro rows
  induction rows with
  | nil =>
    intro ls _
    simp [countValid]
  | cons r rest ih =>
    intro ls hall
    rw [List.foldl_cons, countValid_cons]
    cases hval : rowVid uc r with
    | some vid =>
      obtain ⟨url, hu, hne, hv⟩ := rowVid_elim uc r vid hval
      have hex : expectedPath dir vid enLang ∈ ls.st.files :=
        hall r (List.mem_cons_self r rest) vid hval
      have hstep : stepRow toolRun uc dir ls r = { ls with skip := ls.skip + 1 } :=
        stepRow_exists toolRun uc dir ls r url vid hu hne hv hex
      have hall2 : ∀ q ∈ rest, ∀ vid2, rowVid uc q = some vid2 →
          expectedPath dir vid2 enLang ∈ (stepRow toolRun uc dir ls r).st.files := by
        intro q hq vid2 hq2
        rw [hstep]
        exact hall q (List.mem_cons_of_mem r hq) vid2 hq2
      obtain ⟨ist, isuc, iinv, iskip⟩ := ih (stepRow toolRun uc dir ls r) hall2
      refine ⟨ist.trans (by rw [hstep]), isuc.trans (by rw [hstep]),
        iinv.trans (by rw [hstep]), ?_⟩
      rw [iskip, hstep]
      simp
      omega
    | none =>
      obtain ⟨hst, hsuc, hskip, hinv⟩ := step_invalid toolRun uc dir ls r hval
      have hall2 : ∀ q ∈ rest, ∀ vid2, rowVid uc q = some vid2 →
          expectedPath dir vid2 enLang ∈ (stepRow toolRun uc dir ls r).st.files := by
        intro q hq vid2 hq2
        rw [hst]
        exact hall q (List.mem_cons_of_mem r hq) vid2 hq2
      obtain ⟨ist, isuc, iinv, iskip⟩ := ih (stepRow toolRun uc dir ls r) hall2
      refine ⟨ist.trans hst, isuc.trans hsuc, iinv.trans hinv, ?_⟩
      rw [iskip, hskip]
      simp

/-- The rows the per-row loop actually iterates over: the category filter
followed by the `fullText` redundancy skip. -/
def processedRows (rows : List Row) (uc : List Char) : List Row :=
  if hasFulltext rows then (categoryFilter rows uc).filter needsCaptions
  else categoryFilter rows uc

lemma process_csv_shape (toolRun : Tool) (rows : List Row) (dir uc : List Char) (st : FS)
    (hcol : missingUrlCol rows uc = false) :
    process_csv true (some rows) toolRun dir uc st
      = ⟨true, (categoryFilter rows uc).length, (processedRows rows uc).length,
          (processedRows rows uc).foldl (stepRow toolRun uc dir) (initLS st)⟩ := by
  by_cases hft : hasFulltext rows
  · simp only [process_csv, Bool.not_true, Bool.false_eq_true, if_false, hcol, hft, if_true,
      processedRows]
    by_cases hn : ((categoryFilter rows uc).filter needsCaptions).length = 0
    · rw [if_pos hn, hn, List.length_eq_zero.mp hn]
      rfl
    · rw [if_neg hn]
  · have hft' : hasFulltext rows = false := eq_false_of_ne_true hft
    simp only [process_csv, Bool.not_true, Bool.false_eq_true, if_false, hcol, hft',
      processedRows]
    by_cases hn : (categoryFilter rows uc).length = 0
    · rw [if_pos hn, hn, List.length_eq_zero.mp hn]
      rfl
    · rw [if_neg hn]

/-- C7. Dispatcher idempotence: with the always-succeeding stub tool, running
`process_csv` a second time over the same rows and output directory yields
zero downloads and zero tool invocations, and every row that was downloaded
or skipped in the first run is a skip (`AlreadyExists`) in the second. -/
theorem dispatcher_idempotent (rows : List Row) (dir uc : List Char) (st : FS) :
    (process_csv true (some rows) stubTool dir uc
        (process_csv true (some rows) stubTool dir uc st).loop.st).loop.success = 0 ∧
    (process_csv true (some rows) stubTool dir uc
        (process_csv true (some rows) stubTool dir uc st).loop.st).loop.invoked = 0 ∧
    (process_csv true (some rows) stubTool dir uc
        (process_csv true (some rows) stubTool dir uc st).loop.st).loop.skip
      = (process_csv true (some rows) stubTool dir uc st).loop.success
        + (process_csv true (some rows) stubTool dir uc st).loop.skip := by
  by_cases hcol : missingUrlCol rows uc = true
  · simp [process_csv, hcol, initLS]
  · have hcol2 : missingUrlCol rows uc = false := eq_false_of_ne_true hcol
    have h1 := process_csv_shape stubTool rows dir uc st hcol2
    have hloop1 : (process_csv true (some rows) stubTool dir uc st).loop
        = (processedRows rows uc).foldl (stepRow stubTool uc dir) (initLS st) := by
      rw [h1]
    have h2 := process_csv_shape stubTool rows dir uc
      ((processedRows rows uc).foldl (stepRow stubTool uc dir) (initLS st)).st hcol2
    have hloop2 : (process_csv true (some rows) stubTool dir uc
          (process_csv true (some rows) stubTool dir uc st).loop.st).loop
        = (processedRows rows uc).foldl (stepRow stubTool uc dir)
            (initLS ((processedRows rows uc).foldl (stepRow stubTool uc dir) (initLS st)).st) := by
      rw [hloop1, h2]
    have hall : ∀ r ∈ processedRows rows uc, ∀ vid, rowVid uc r = some vid →
        expectedPath dir vid enLang
          ∈ (initLS ((processedRows rows uc).foldl (stepRow stubTool uc dir)
              (initLS st)).st).st.files := by
      intro r hr vid hvid
      exact stub_run_writes uc dir (processedRows rows uc) (initLS st) r vid hr hvid
    obtain ⟨est, esuc, einv, eskip⟩ := run_all_exists stubTool uc dir (processedRows rows uc)
      (initLS ((processedRows rows uc).foldl (stepRow stubTool uc dir) (initLS st)).st) hall
    have hcounts := stub_run_counts uc dir (processedRows rows uc) (initLS st)
    rw [hloop2, hloop1]
    refine ⟨by simpa [initLS] using esuc, by simpa [initLS] using einv, ?_⟩
    rw [eskip, hcounts]
    simp [initLS]

lemma truthyGet_iff (r : Row) (k : List Char) :
    truthyGet r k = true ↔ ∃ u, rget r k = some u ∧ u ≠ [] := by
  unfold truthyGet
  cases h : rget r k with
  | none => simp
  | some v => simp [List.isEmpty_iff]

/-- C4. The category filter: with both `kind` and `source` columns present the
dispatcher keeps exactly the rows with `kind = "video"` and
`source = "YouTube"` (exact, case-sensitive match, regardless of the URL
field); with either column absent it keeps exactly the rows whose URL field is
present and non-empty. -/
theorem category_filter_spec (rows : List Row) (url_column : List Char) :
    (hasKindSource rows = true →
      ∀ r : Row, r ∈ categoryFilter rows url_column ↔
        r ∈ rows ∧ rget r kindKey = some videoVal ∧ rget r sourceKey = some youtubeVal) ∧
    (hasKindSource rows = false →
      ∀ r : Row, r ∈ categoryFilter rows url_column ↔
        r ∈ rows ∧ ∃ u, rget r url_column = some u ∧ u ≠ []) := by
  constructor
  · intro h r
    simp [categoryFilter, h, List.mem_filter]
  · intro h r
    simp [categoryFilter, h, List.mem_filter, truthyGet_iff]

/-- Witness for C4: one matching and one non-matching row under the
kind/source filter. -/
theorem category_filter_spec_w :
    [(kindKey, videoVal), (sourceKey, youtubeVal)]
        ∈ categoryFilter [[(kindKey, videoVal), (sourceKey, youtubeVal)],
            [(kindKey, "article".data), (sourceKey, youtubeVal)]] urlKey ↔
      [(kindKey, videoVal), (sourceKey, youtubeVal)]
          ∈ [[(kindKey, videoVal), (sourceKey, youtubeVal)],
              [(kindKey, "article".data), (sourceKey, youtubeVal)]] ∧
        rget [(kindKey, videoVal), (sourceKey, youtubeVal)] kindKey = some videoVal ∧
        rget [(kindKey, videoVal), (sourceKey, youtubeVal)] sourceKey = some youtubeVal :=
  (category_filter_spec [[(kindKey, videoVal), (sourceKey, youtubeVal)],
      [(kindKey, "article".data), (sourceKey, youtubeVal)]] urlKey).1
    (by decide) [(kindKey, videoVal), (sourceKey, youtubeVal)]

lemma pyStrip_nil : pyStrip [] = [] := rfl

/-- C5. With a `fullText` column present, the per-row loop of the dispatcher runs
exactly over the category-matched rows whose `fullText` is empty or
whitespace-only; a row is excluded precisely when its `fullText` is non-empty
after trimming, the needing-captions count is the size of the retained list,
and the loop state is a fold over the retained rows only, so excluded rows
contribute to no counter. -/
theorem fulltext_skip_spec (rows : List Row) (toolRun : Tool)
    (dir url_column : List Char) (st : FS)
    (hft : hasFulltext rows = true)
    (hcol : missingUrlCol rows url_column = false) :
    (∀ r : Row, r ∈ (categoryFilter rows url_column).filter needsCaptions ↔
        r ∈ categoryFilter rows url_column ∧ needsCaptions r = true) ∧
    (∀ r : Row, ∀ v : List Char, rget r ftKey = some v →
        (needsCaptions r = false ↔ pyStrip v ≠ [])) ∧
    process_csv true (some rows) toolRun dir url_column st
      = ⟨true, (categoryFilter rows url_column).length,
          ((categoryFilter rows url_column).filter needsCaptions).length,
          ((categoryFilter rows url_column).filter needsCaptions).foldl
            (stepRow toolRun url_column dir) (initLS st)⟩ := by
  refine ⟨?_, ?_, ?_⟩
  · intro r
    exact List.mem_filter
  · intro r v hv
    simp only [needsCaptions, hv]
    constructor
    · intro h
      simp only [Bool.or_eq_false_iff, List.isEmpty_eq_false] at h
      simpa [List.isEmpty_iff] using h.2
    · intro h
      have hvne : v ≠ [] := by
        intro hnil
        rw [hnil, pyStrip_nil] at h
        exact h rfl
      simp [List.isEmpty_eq_false, hvne, List.isEmpty_iff, h]
  · have := process_csv_shape toolRun rows dir url_column st hcol
    rw [this, processedRows, if_pos hft]

/-- Witness for C5: two category-matched rows, one with populated `fullText`
(excluded) and one with empty `fullText` (retained). -/
theorem fulltext_skip_spec_w :
    process_csv true
        (some [[(urlKey, "https://youtu.be/a1".data), (ftKey, "transcript".data)],
               [(urlKey, "https://youtu.be/b2".data), (ftKey, "".data)]])
        stubTool "cap".data urlKey ⟨[], []⟩
      = ⟨true,
          (categoryFilter
            [[(urlKey, "https://youtu.be/a1".data), (ftKey, "transcript".data)],
             [(urlKey, "https://youtu.be/b2".data), (ftKey, "".data)]] urlKey).length,
          ((categoryFilter
            [[(urlKey, "https://youtu.be/a1".data), (ftKey, "transcript".data)],
             [(urlKey, "https://youtu.be/b2".data), (ftKey, "".data)]] urlKey).filter
              needsCaptions).length,
          ((categoryFilter
            [[(urlKey, "https://youtu.be/a1".data), (ftKey, "transcript".data)],
             [(urlKey, "https://youtu.be/b2".data), (ftKey, "".data)]] urlKey).filter
              needsCaptions).foldl (stepRow stubTool urlKey "cap".data) (initLS ⟨[], []⟩)⟩ :=
  (fulltext_skip_spec
    [[(urlKey, "https://youtu.be/a1".data), (ftKey, "transcript".data)],
     [(urlKey, "https://youtu.be/b2".data), (ftKey, "".data)]]
    stubTool "cap".data urlKey ⟨[], []⟩ (by decide) (by decide)).2.2

lemma process_csv_fail (toolOk : Bool) (csvRead : Option (List Row)) (toolRun : Tool)
    (dir uc : List Char) (st : FS)
    (h : (process_csv toolOk csvRead toolRun dir uc st).ok = false) :
    process_csv toolOk csvRead toolRun dir uc st = ⟨false, 0, 0, initLS st⟩ := by
  cases toolOk with
  | false => rfl
  | true =>
    cases csvRead with
    | none => rfl
    | some rows =>
      by_cases hcol : missingUrlCol rows uc = true
      · simp [process_csv, hcol]
      · have hcol2 := eq_false_of_ne_true hcol
        rw [process_csv_shape toolRun rows dir uc st hcol2] at h
        exact absurd h (by simp)

lemma process_csv_ok_iff (toolOk : Bool) (csvRead : Option (List Row)) (toolRun : Tool)
    (dir uc : List Char) (st : FS) :
    (process_csv toolOk csvRead toolRun dir uc st).ok = true ↔
      (toolOk = true ∧ ∃ rows, csvRead = some rows ∧ missingUrlCol rows uc = false) := by
  cases toolOk with
  | false => simp [process_csv]
  | true =>
    cases csvRead with
    | none => simp [process_csv]
    | some rows =>
      by_cases hcol : missingUrlCol rows uc = true
      · simp [process_csv, hcol]
      · have hcol2 := eq_false_of_ne_true hcol
        rw [process_csv_shape toolRun rows dir uc st hcol2]
        simp [hcol2]

/-- C6. The run exits 1 exactly when a fail-fast condition holds (CSV file
missing, tool probe failing, CSV unreadable, or a non-empty row set lacking
the URL column); a failed `process_csv` leaves the loop state untouched (no
row processed, no tool invocation past the probe); and the exit code is
always 0 or 1 — per-row failures never abort the run. -/
theorem exit_code_spec (csvExists toolOk : Bool) (csvRead : Option (List Row))
    (toolRun : Tool) (dir : List Char) (st : FS) :
    (mainExit csvExists toolOk csvRead toolRun dir st = 1 ↔
      (csvExists = false ∨ toolOk = false ∨ csvRead = none ∨
        ∃ r rest, csvRead = some (r :: rest) ∧ hasKey r urlKey = false)) ∧
    ((process_csv toolOk csvRead toolRun dir urlKey st).ok = false →
      (process_csv toolOk csvRead toolRun dir urlKey st).loop = initLS st) ∧
    (mainExit csvExists toolOk csvRead toolRun dir st = 0 ∨
      mainExit csvExists toolOk csvRead toolRun dir st = 1) := by
  have hok := process_csv_ok_iff toolOk csvRead toolRun dir urlKey st
  refine ⟨?_, ?_, ?_⟩
  · cases csvExists with
    | false =>
      constructor
      · intro _
        exact Or.inl rfl
      · intro _
        rfl
    | true =>
      have hme : mainExit true toolOk csvRead toolRun dir st
          = if (process_csv toolOk csvRead toolRun dir urlKey st).ok then 0 else 1 := rfl
      rw [hme]
      by_cases h : (process_csv toolOk csvRead toolRun dir urlKey st).ok = true
      · rw [if_pos h]
        constructor
        · intro h01
          exact absurd h01 (by decide)
        · intro hcases
          obtain ⟨htk, rows, hcr, hcol⟩ := hok.mp h
          rcases hcases with hfalse | hfalse | hfalse | ⟨r, rest, hcr2, hk⟩
          · exact absurd hfalse (by decide)
          · rw [htk] at hfalse
            exact absurd hfalse (by decide)
          · rw [hcr] at hfalse
            exact Option.noConfusion hfalse
          · rw [hcr] at hcr2
            have hrows : rows = r :: rest := by
              injection hcr2
            rw [hrows] at hcol
            simp [missingUrlCol, hk] at hcol
      · rw [if_neg h]
        constructor
        · intro _
          cases toolOk with
          | false => exact Or.inr (Or.inl rfl)
          | true =>
            cases csvRead with
            | none => exact Or.inr (Or.inr (Or.inl rfl))
            | some rows =>
              rcases rows with _ | ⟨r, rest⟩
              · exfalso
                apply h
                apply hok.mpr
                exact ⟨rfl, [], rfl, rfl⟩
              · by_cases hk : hasKey r urlKey = true
                · exfalso
                  apply h
                  apply hok.mpr
                  refine ⟨rfl, r :: rest, rfl, ?_⟩
                  simp [missingUrlCol, hk]
                · exact Or.inr (Or.inr (Or.inr ⟨r, rest, rfl, eq_false_of_ne_true hk⟩))
        · intro _
          rfl
  · intro h
    rw [process_csv_fail toolOk csvRead toolRun dir urlKey st h]
  · cases csvExists with
    | false => exact Or.inr rfl
    | true =>
      have hme : mainExit true toolOk csvRead toolRun dir st
          = if (process_csv toolOk csvRead toolRun dir urlKey st).ok then 0 else 1 := rfl
      rw [hme]
      by_cases h : (process_csv toolOk csvRead toolRun dir urlKey st).ok = true
      · rw [if_pos h]
        exact Or.inl rfl
      · rw [if_neg h]
        exact Or.inr rfl

/-- Witness for C6: a missing CSV file yields exit code 1, and a failing
probe leaves the loop state at its initial value. -/
theorem exit_code_spec_w :
    mainExit false true none stubTool "cap".data ⟨[], []⟩ = 1 ∧
    (process_csv false none stubTool "cap".data urlKey ⟨[], []⟩).loop = initLS ⟨[], []⟩ :=
  ⟨(exit_code_spec false true none stubTool "cap".data ⟨[], []⟩).1.mpr (Or.inl rfl),
   (exit_code_spec false false none stubTool "cap".data ⟨[], []⟩).2.1 (by decide)⟩

/-- C8. A row whose URL field is missing or empty is skipped silently inside
the loop — no counter changes and no filesystem change — and on the concrete
input of one kind/source-matched row with an empty URL the final counters sum
to strictly less than the reported needing-captions count. -/
theorem silent_url_skip :
    (∀ (toolRun : Tool) (uc dir : List Char) (ls : LoopState) (r : Row),
        rget r uc = none → stepRow toolRun uc dir ls r = ls) ∧
    (∀ (toolRun : Tool) (uc dir : List Char) (ls : LoopState) (r : Row),
        rget r uc = some [] → stepRow toolRun uc dir ls r = ls) ∧
    ((process_csv true (some [[(kindKey, videoVal), (sourceKey, youtubeVal), (urlKey, [])]])
          stubTool "cap".data urlKey ⟨[], []⟩).loop.success
      + (process_csv true (some [[(kindKey, videoVal), (sourceKey, youtubeVal), (urlKey, [])]])
          stubTool "cap".data urlKey ⟨[], []⟩).loop.skip
      + (process_csv true (some [[(kindKey, videoVal), (sourceKey, youtubeVal), (urlKey, [])]])
          stubTool "cap".data urlKey ⟨[], []⟩).loop.error
      < (process_csv true (some [[(kindKey, videoVal), (sourceKey, youtubeVal), (urlKey, [])]])
          stubTool "cap".data urlKey ⟨[], []⟩).needing) := by
  refine ⟨?_, ?_, ?_⟩
  · intro toolRun uc dir ls r h
    simp [stepRow, h]
  · intro toolRun uc dir ls r h
    simp [stepRow, h]
  · decide

/-- Witness for C8: the one-row loop body at the empty-URL row changes
nothing. -/
theorem silent_url_skip_w :
    stepRow stubTool urlKey "cap".data ⟨⟨[], []⟩, 0, 0, 0, 0⟩
        [(kindKey, videoVal), (sourceKey, youtubeVal), (urlKey, [])]
      = ⟨⟨[], []⟩, 0, 0, 0, 0⟩ :=
  silent_url_skip.2.1 stubTool urlKey "cap".data ⟨⟨[], []⟩, 0, 0, 0, 0⟩
    [(kindKey, videoVal), (sourceKey, youtubeVal), (urlKey, [])] (by decide)
